import Mathlib

/-!
Verification of the notes-editor core: a shallow embedding of the
Markdown section engine, the line-indexed mutators, the path resolver
and the git sync coordinator.

File contents are modelled as `List Char` (Python `str`); a document is
split into newline-separated lines exactly as Python `str.split("\n")`
and `str.splitlines()` do for `"\n"`-terminated text (exotic unicode
line terminators are out of scope).  Regex patterns from the source are
translated into explicit character scanners; each scanner is a faithful
rendering of the backtracking behaviour of the concrete pattern it
models (noted at each definition).  The filesystem and the git
subprocesses are modelled as explicit parameters (a read function, a
`GitWorld` record of subprocess outcomes).
-/

/-- Python `\s` for the ASCII range (re module whitespace class):
space, tab, newline, carriage return, vertical tab, form feed. -/
def isWs (c : Char) : Bool :=
  c == ' ' || c == '\t' || c == '\n' || c == '\r' ||
  c == Char.ofNat 11 || c == Char.ofNat 12

/-- `takeWhile` on an explicit predicate (own definition, used by the
scanners). -/
def takeW {α : Type} (p : α → Bool) : List α → List α
  | [] => []
  | a :: t => if p a then a :: takeW p t else []

/-- `dropWhile` on an explicit predicate. -/
def dropW {α : Type} (p : α → Bool) : List α → List α
  | [] => []
  | a :: t => if p a then dropW p t else a :: t

/-- `filter` keeping the elements satisfying `p`. -/
def filterW {α : Type} (p : α → Bool) : List α → List α
  | [] => []
  | a :: t => if p a then a :: filterW p t else filterW p t

/-- Does `p` lead `l` (list-prefix test, Python `str.startswith`)? -/
def leadsWith {α : Type} [DecidableEq α] : List α → List α → Bool
  | [], _ => true
  | _ :: _, [] => false
  | a :: as, b :: bs => if a = b then leadsWith as bs else false

/-- The last element, if any (induction-friendly shape). -/
def lastItem {α : Type} : List α → Option α
  | [] => none
  | [a] => some a
  | _ :: b :: t => lastItem (b :: t)

/-- Replace the element at index `i` (Python `lines[i] = x`; out-of-range
indices leave the list unchanged, never reached by the callers). -/
def setIdx {α : Type} : List α → Nat → α → List α
  | [], _, _ => []
  | _ :: t, 0, b => b :: t
  | a :: t, n + 1, b => a :: setIdx t n b

/-- The element at index `i`, with default `d`. -/
def getIdx {α : Type} (d : α) : List α → Nat → α
  | [], _ => d
  | a :: _, 0 => a
  | _ :: t, n + 1 => getIdx d t n

/-- Python `str.split(sep)` for a one-character separator: every
separator occurrence splits, empty pieces kept, `""` gives `[""]`. -/
def splitOnChar (sep : Char) : List Char → List (List Char)
  | [] => [[]]
  | c :: rest =>
    if c = sep then [] :: splitOnChar sep rest
    else
      match splitOnChar sep rest with
      | [] => [[c]]
      | l :: ls => (c :: l) :: ls

/-- Split at newlines (the pieces of `content.split("\n")`). -/
def splitOnNL (cs : List Char) : List (List Char) := splitOnChar '\n' cs

/-- `"\n".join(lines)`. -/
def joinNL : List (List Char) → List Char
  | [] => []
  | [l] => l
  | l :: l₂ :: ls => l ++ '\n' :: joinNL (l₂ :: ls)

/-- `sep.join(pieces)` for an arbitrary separator string. -/
def sepJoin (sep : List Char) : List (List Char) → List Char
  | [] => []
  | [l] => l
  | l :: l₂ :: ls => l ++ sep ++ sepJoin sep (l₂ :: ls)

/-- Does the text end with a newline (`content.endswith("\n")`)? -/
def endsNL : List Char → Bool
  | [] => false
  | c :: rest => if rest.isEmpty then c == '\n' else endsNL rest

/-- Python `str.splitlines()` restricted to `"\n"`-terminated lines:
split at newlines and drop the final empty piece produced by a trailing
newline (so `"" ↦ []`, `"a\n" ↦ ["a"]`, `"a\nb" ↦ ["a","b"]`). -/
def pySplitlines (cs : List Char) : List (List Char) :=
  let ps := splitOnNL cs
  if lastItem ps = some [] then ps.dropLast else ps

/-- Python `str.lstrip()`. -/
def pyLstrip (cs : List Char) : List Char := dropW isWs cs

/-- Python `str.rstrip()`. -/
def pyRstrip (cs : List Char) : List Char := (dropW isWs cs.reverse).reverse

/-- Python `str.strip()`. -/
def pyStrip (cs : List Char) : List Char := pyLstrip (pyRstrip cs)

/-- Lowercase a string (Python `str.lower()`, ASCII range). -/
def lowerList (cs : List Char) : List Char := cs.map Char.toLower

/-- Python `needle in hay` on strings (substring test). -/
def containsSub (needle : List Char) : List Char → Bool
  | [] => needle.isEmpty
  | c :: rest => leadsWith needle (c :: rest) || containsSub needle rest

/-- Does the line contain the literal marker `<pinned>` case-insensitively
(`"<pinned>" in line.lower()`)? -/
def containsPinnedCI (l : List Char) : Bool :=
  containsSub "<pinned>".data (lowerList l)

/-! ## Path Resolver (`app/services/vault_store.py`) -/

inductive VaultError where
  | invalidPath
  | pathEscape
deriving DecidableEq, Repr

/-- The vault root `Path.home() / "notes"` as an absolute segment list
(the concrete home directory is immaterial; `/home/user` is used). -/
def VAULT_ROOT : List (List Char) := ["home".data, "user".data, "notes".data]

/-- POSIX `Path(p).is_absolute()`: the path starts with `/`. -/
def isAbsolutePath : List Char → Bool
  | '/' :: _ => true
  | _ => false

/-- The path's segments: split at `/`, dropping empty segments and `.`
(pathlib keeps `..` as a segment). -/
def pathSegs (p : List Char) : List (List Char) :=
  filterW (fun s => !(s = [] || s = ".".data)) (splitOnChar '/' p)

/-- `Path.resolve()` without symlinks: process segments left to right,
`..` removing the last segment (at the root it stays at the root). -/
def resolveSegs : List (List Char) → List (List Char) → List (List Char)
  | acc, [] => acc
  | acc, s :: rest =>
    if s = "..".data then resolveSegs acc.dropLast rest
    else resolveSegs (acc ++ [s]) rest

/-- The absolute resolved form of a vault-relative path. -/
def resolvedFull (p : List Char) : List (List Char) :=
  resolveSegs VAULT_ROOT (pathSegs p)

/-- `resolve_path` of `vault_store.py`: reject empty and absolute input,
resolve against the vault root, reject results that are neither the
vault root itself nor below it (`VAULT_ROOT not in full.parents and
full != VAULT_ROOT` raises), otherwise return the resolved path.
Symlink resolution is modelled as the identity (no symlinks). -/
def resolve_path (p : List Char) : Except VaultError (List (List Char)) :=
  if p = [] then .error .invalidPath
  else if isAbsolutePath p then .error .invalidPath
  else if leadsWith VAULT_ROOT (resolvedFull p) then .ok (resolvedFull p)
  else .error .pathEscape

deriving instance DecidableEq for Except

/-- `read_entry`: resolve, then read from the filesystem `fs`
(`none` = missing file).  The read happens only after `resolve_path`
succeeds. -/
def read_entry (fs : List (List Char) → Option (List Char)) (p : List Char) :
    Except VaultError (Option (List Char)) :=
  match resolve_path p with
  | .error e => .error e
  | .ok fp => .ok (fs fp)

/-! ## Sync Coordinator (`app/services/git_sync.py`) -/

/-- Outcomes of the git subprocess calls made by one
`git_pull` / `git_commit_and_push` execution.  `Except` fields model
`check=True` calls (a `CalledProcessError` carries stderr); `Bool`
fields model return-code tests; `branch` models `git rev-parse`
succeeding with a branch name. -/
structure GitWorld where
  gitExists : Bool
  pullMergeOk : Bool
  branch : Option (List Char)
  statusRun : Except (List Char) (List Char)
  addRun : Except (List Char) Unit
  commitRun : Except (List Char) Unit
  pushOk : Bool
  retryPushOk : Bool

/-- `git_pull`: trivial success without a repository; merge-style pull;
on failure fetch and hard-reset to the remote branch; `(success, msg)`,
never an exception. -/
def git_pull (w : GitWorld) : Bool × List Char :=
  if w.gitExists = false then (true, "No git repository".data)
  else if w.pullMergeOk then (true, "Pulled latest changes".data)
  else
    match w.branch with
    | some _ => (true, "Recovered by resetting to remote".data)
    | none => (false, "Git pull failed".data)

/-- `git_commit_and_push`: trivial success without a repository; no-op
on a clean tree; stage, commit, push; on push failure pull once and
retry the push once; every outcome (including a `CalledProcessError`
from status/add/commit) is reported as `(True, message)`. -/
def git_commit_and_push (w : GitWorld) (message : List Char) : Bool × List Char :=
  if w.gitExists = false then (true, "No git repository (notes saved locally)".data)
  else
    match w.statusRun with
    | .error e => (true, "Changes saved locally: ".data ++ e)
    | .ok out =>
      if pyStrip out = [] then (true, "No changes to commit".data)
      else
        match w.addRun with
        | .error e => (true, "Changes saved locally: ".data ++ e)
        | .ok _ =>
          match w.commitRun with
          | .error e => (true, "Changes saved locally: ".data ++ e)
          | .ok _ =>
            if w.pushOk then (true, "Changes committed and pushed".data)
            else if (git_pull w).1 && w.retryPushOk then
              (true, "Changes committed and pushed (after sync)".data)
            else
              (true, "Changes committed locally (push failed, will retry on next sync)".data)

/-! ## Section Model (`server/web_app/main.py`, `extract_section`)

The source searches `content` with `re.search(pattern, content,
re.MULTILINE | re.IGNORECASE)`, slices from `match.end()` up to the
next `^## ` match, and strips the slice.

For the name `todos` the pattern is `^##\s+todos\s*$`, and in Python
`\s+`/`\s*` also match newlines (`MULTILINE` only moves the anchors):
the header may span several lines — `##` ending one line, any number
of whitespace-only lines, then a line that is whitespace, `todos`
(case-insensitive), whitespace.  `todosSectionAfter` models exactly
that search: `\s+` must be the maximal whitespace run after `##`
(the next character has to start `todos`), `\s*$` then requires the
remainder of the `todos` line to be whitespace, and any line ends the
match may slide over are whitespace-only, which the final `.strip()`
and the `^## `-search make immaterial.  The body slice is therefore
the lines after the line carrying `todos`.

For every other name the pattern is `rf'^## {name}\s*$'` with the name
interpolated UNESCAPED into the regex.  The embedding models the
pattern for regex-literal names (`regexLiteralName`: no regex
metacharacter, no newline), for which the pattern matches the name as
exact text inside one line; for names containing metacharacters the
Python pattern matches differently, and a name that is an invalid
regex raises `re.error` — both outside this embedding, and noted in
the C7 correction. -/

/-- A regex metacharacter of Python `re`. -/
def regexMeta (c : Char) : Bool :=
  c == '.' || c == '^' || c == '$' || c == '*' || c == '+' || c == '?' ||
  c == Char.ofNat 123 || c == Char.ofNat 125 || c == '[' || c == ']' ||
  c == '(' || c == ')' || c == '|' || c == '\\'

/-- A name that stands for itself when interpolated into the pattern:
no regex metacharacter and no newline. -/
def regexLiteralName (name : List Char) : Bool :=
  name.all (fun c => !regexMeta c && !(c == '\n'))

/-- One line matching `^## <name>\s*$` with the name as exact text,
case-insensitively (the general-name header pattern, for regex-literal
names). -/
def sectionHeaderLine (name l : List Char) : Bool :=
  l.take 3 = "## ".data &&
  lowerList ((l.drop 3).take name.length) = lowerList name &&
  ((l.drop 3).drop name.length).all isWs

/-- A line that is whitespace, `todos` (case-insensitive), whitespace. -/
def todosLine (l : List Char) : Bool :=
  lowerList ((dropW isWs l).take 5) = "todos".data &&
  ((dropW isWs l).drop 5).all isWs

/-- A line `##` followed by whitespace only (a multi-line
`^##\s+todos\s*$` match starts here, the newline feeding `\s+`). -/
def isHashHashWs : List Char → Bool
  | '#' :: '#' :: rest => rest.all isWs
  | _ => false

/-- A one-line `^##\s+todos\s*$` match: `##`, at least one whitespace
character, `todos`, whitespace. -/
def hashHashTodosLine : List Char → Bool
  | '#' :: '#' :: rest => !(takeW isWs rest).isEmpty && todosLine rest
  | _ => false

/-- Continue a multi-line `^##\s+todos\s*$` match: skip whitespace-only
lines; the first other line must be the `todos` line, and the body
starts after it. -/
def skipBlankThenTodos : List (List Char) → Option (List (List Char))
  | [] => none
  | l :: ls =>
    if l.all isWs then skipBlankThenTodos ls
    else if todosLine l then some ls
    else none

/-- The `re.search(r'^##\s+todos\s*$', ...)` scan: at each line start,
try the one-line match, then the multi-line match; on success return
the lines after the header's last line. -/
def todosSectionAfter : List (List Char) → Option (List (List Char))
  | [] => none
  | l :: ls =>
    if hashHashTodosLine l then some ls
    else if isHashHashWs l then
      match skipBlankThenTodos ls with
      | some rest => some rest
      | none => todosSectionAfter ls
    else todosSectionAfter ls

/-- A line starting a new `##` section (`^## `). -/
def isH2 (l : List Char) : Bool := l.take 3 = "## ".data

/-- The lines of the first matching general-name section: everything
after the first line matching the header, up to the next `^## ` line
or the end. -/
def sectionBody (name : List Char) : List (List Char) → Option (List (List Char))
  | [] => none
  | l :: ls =>
    if sectionHeaderLine name l then some (takeW (fun x => !isH2 x) ls)
    else sectionBody name ls

/-- `extract_section`: empty for a missing section, otherwise the body
text stripped of leading/trailing whitespace; the `todos` name uses
the `^##\s+todos\s*$` search, every other name the interpolated
`^## <name>\s*$` pattern (modelled for regex-literal names). -/
def extract_section (content name : List Char) : List Char :=
  if lowerList name = "todos".data then
    match todosSectionAfter (splitOnNL content) with
    | none => []
    | some rest => pyStrip (joinNL (takeW (fun x => !isH2 x) rest))
  else
    match sectionBody name (splitOnNL content) with
    | none => []
    | some b => pyStrip (joinNL b)

/-- The general-name section body via first-index combinators (lines
after the first matching header line up to the next `^## ` line, with
the code's final whitespace strip). -/
def find_section_spec (content name : List Char) : List Char :=
  match dropW (fun l => !sectionHeaderLine name l) (splitOnNL content) with
  | [] => []
  | _ :: rest => pyStrip (joinNL (takeW (fun l => !isH2 l) rest))

/-- A blank line (empty or whitespace only). -/
def isBlankLine (l : List Char) : Bool := l.all isWs

/-- Trim leading and trailing blank lines of a line list. -/
def trimBlankLines (ls : List (List Char)) : List (List Char) :=
  (dropW isBlankLine (dropW isBlankLine ls).reverse).reverse

/-- The claim's literal reading of `find_section`: the first LINE
matching the header pattern for the name as exact text
(case-insensitive, optional trailing whitespace), body trimmed of
leading/trailing BLANK LINES only. -/
def find_section_claim (content name : List Char) : List Char :=
  match dropW (fun l => !sectionHeaderLine name l) (splitOnNL content) with
  | [] => []
  | _ :: rest => joinNL (trimBlankLines (takeW (fun l => !isH2 l) rest))

/-! ## Todo Extractor (`extract_incomplete_todos`) -/

/-- The completed-checkbox pattern `^\s*-\s*\[x\]` `IGNORECASE`:
optional whitespace, `-`, optional whitespace, then exactly `[x]` or
`[X]` (both `\s*` runs are forced maximal because the following literal
is not whitespace). -/
def isCompletedTodoLine (l : List Char) : Bool :=
  match dropW isWs l with
  | '-' :: r =>
    match dropW isWs r with
    | '[' :: c :: ']' :: _ => c == 'x' || c == 'X'
    | _ => false
  | _ => false

/-- The filtering loop of `extract_incomplete_todos` (append every line
not matching the completed pattern). -/
def incompleteLoop : List (List Char) → List (List Char)
  | [] => []
  | l :: ls =>
    if isCompletedTodoLine l then incompleteLoop ls
    else l :: incompleteLoop ls

/-- `extract_incomplete_todos`: the todos section's lines with the
completed items dropped, rejoined and stripped; empty for an absent or
empty section and when nothing remains (`result if result else ""`). -/
def extract_incomplete_todos (content : List Char) : List Char :=
  let todos := extract_section content "todos".data
  if todos = [] then []
  else
    let res := pyStrip (joinNL (incompleteLoop (splitOnNL todos)))
    if res = [] then [] else res

/-! ## Pinned Extractor (`extract_pinned_notes`) -/

/-- A `###` entry-header line (`line.startswith("### ")`). -/
def isEntryHeader (l : List Char) : Bool := l.take 4 = "### ".data

/-- Flush the open entry: keep it when it is pinned and non-empty. -/
def pinnedFlush (acc : List (List Char)) (cur : List (List Char)) (isP : Bool) :
    List (List Char) :=
  if isP && !cur.isEmpty then acc ++ [joinNL cur] else acc

/-- The scanning loop of `extract_pinned_notes`: group lines into
entries at each `### ` header, remember whether the open entry's header
contains `<pinned>`, drop lines before the first header, flush the last
open entry at the end. -/
def pinnedLoop : List (List Char) → List (List Char) → List (List Char) → Bool →
    List (List Char)
  | [], acc, cur, isP => pinnedFlush acc cur isP
  | l :: rest, acc, cur, isP =>
    if isEntryHeader l then
      pinnedLoop rest (pinnedFlush acc cur isP) [l] (containsPinnedCI l)
    else if cur.isEmpty then pinnedLoop rest acc cur isP
    else pinnedLoop rest acc (cur ++ [l]) isP

/-- `extract_pinned_notes`: the pinned `###` entries of the custom
notes section, joined with `"\n\n"`. -/
def extract_pinned_notes (content : List Char) : List Char :=
  let cn := extract_section content "custom notes".data
  if cn = [] then []
  else sepJoin "\n\n".data (pinnedLoop (splitOnNL cn) [] [] false)

/-- Entry grouping: `cur` is the open span; a `### ` header closes the
open span and starts a new one, the end closes the open span, lines
before the first header belong to no span. -/
def entrySpansGo : List (List Char) → List (List Char) → List (List (List Char))
  | [], cur => if cur.isEmpty then [] else [cur]
  | l :: ls, cur =>
    if isEntryHeader l then
      (if cur.isEmpty then [] else [cur]) ++ entrySpansGo ls [l]
    else if cur.isEmpty then entrySpansGo ls []
    else entrySpansGo ls (cur ++ [l])

/-- The entry spans of a line list: each span starts at a `### ` header
and extends up to (excluding) the next header or the end. -/
def entrySpans (ls : List (List Char)) : List (List (List Char)) :=
  entrySpansGo ls []

/-- Is the span's header line pinned? -/
def spanPinned : List (List Char) → Bool
  | [] => false
  | h :: _ => containsPinnedCI h

/-- The claim's reading of the pinned extractor: the pinned entry spans
of the custom notes section, in order, joined with one blank line. -/
def pinned_notes_spec (content : List Char) : List Char :=
  let cn := extract_section content "custom notes".data
  if cn = [] then []
  else
    sepJoin "\n\n".data
      ((filterW spanPinned (entrySpans (splitOnNL cn))).map joinNL)

/-! ## Daily Note Materializer (`ensure_file_exists`,
`get_most_recent_note`) -/

/-- Python string `<` (lexicographic by code point). -/
def lexLe : List Char → List Char → Bool
  | [], _ => true
  | _ :: _, [] => false
  | a :: as, b :: bs => if a = b then lexLe as bs else decide (a < b)

/-- Insert into a descending-sorted list. -/
def insertDesc (x : List Char) : List (List Char) → List (List Char)
  | [] => [x]
  | y :: t => if lexLe y x then x :: y :: t else y :: insertDesc x t

/-- `sorted(files, reverse=True)`. -/
def sortDesc : List (List Char) → List (List Char)
  | [] => []
  | x :: t => insertDesc x (sortDesc t)

/-- The first filename different from today's. -/
def firstOther (today : List Char) : List (List Char) → Option (List Char)
  | [] => none
  | f :: t => if f = today then firstOther today t else some f

/-- `get_most_recent_note`: reverse-lexicographically sort the daily
filenames (the glob matches, given as `files`; a missing directory is
the empty list) and return the first whose name is not today's. -/
def get_most_recent_note (files : List (List Char)) (today : List Char) :
    Option (List Char) :=
  firstOther today (sortDesc files)

/-- `ensure_file_exists`: `none` when today's note already exists
(no write); otherwise the content written — the `# daily <date>`
header, then a `## todos` section seeded with the previous note's
incomplete todos (when non-empty), then a `## custom notes` section
seeded with its pinned notes (when non-empty).  `readFile` models
reading the previous note found by `get_most_recent_note`. -/
def ensure_file_exists (alreadyExists : Bool) (dateStr todayName : List Char)
    (files : List (List Char)) (readFile : List Char → List Char) :
    Option (List Char) :=
  if alreadyExists then none
  else
    let base := "# daily ".data ++ dateStr ++ "\n\n".data
    some (match get_most_recent_note files todayName with
      | none => base
      | some f =>
        let prev := readFile f
        let it := extract_incomplete_todos prev
        let c₁ :=
          if it = [] then base
          else base ++ "## todos\n\n".data ++ it ++ "\n\n".data
        let pn := extract_pinned_notes prev
        if pn = [] then c₁
        else c₁ ++ "## custom notes\n\n".data ++ pn ++ "\n\n".data)

/-! ## Line-Indexed Mutator (`toggle_todo`, `unpin_entry`)

Both endpoints reject `line < 1` and `line > len(lines)` with an HTTP
400 (modelled as `Except.error 400`), rewrite one line of
`content.splitlines()`, rejoin with `"\n"` and restore the original
trailing newline.  The git outcome only affects the returned message's
success text, which is modelled as the success-path message. -/

/-- The incomplete-checkbox pattern `^\s*-\s*\[\s*\]\s*`: whitespace,
`-`, whitespace, `[`, whitespace, `]` (each `\s*` is forced maximal
because the literal following it is not whitespace; the trailing `\s*`
matches trivially). -/
def lineMatchIncomplete (l : List Char) : Bool :=
  match dropW isWs l with
  | '-' :: r =>
    match dropW isWs r with
    | '[' :: r₂ =>
      match dropW isWs r₂ with
      | ']' :: _ => true
      | _ => false
    | _ => false
  | _ => false

/-- The complete-checkbox pattern `^\s*-\s*\[x\]\s*` `IGNORECASE`:
whitespace, `-`, whitespace, then exactly `[x]` or `[X]`. -/
def lineMatchComplete (l : List Char) : Bool :=
  match dropW isWs l with
  | '-' :: r =>
    match dropW isWs r with
    | '[' :: c :: ']' :: _ => c == 'x' || c == 'X'
    | _ => false
  | _ => false

/-- `re.sub(r"\[\s*\]", "[x]", target, count=1)`: rewrite the leftmost
`[`-whitespace-`]` occurrence to `[x]` (the scan matches Python's
left-to-right search; `\s*` before `]` is forced maximal). -/
def replBoxEmpty : List Char → List Char
  | [] => []
  | c :: rest =>
    if c = '[' then
      match dropW isWs rest with
      | ']' :: r₂ => '[' :: 'x' :: ']' :: r₂
      | _ => c :: replBoxEmpty rest
    else c :: replBoxEmpty rest

/-- The tail after a `\s*x\s*\]` match (`IGNORECASE`), if any. -/
def boxXTail (rest : List Char) : Option (List Char) :=
  match dropW isWs rest with
  | c :: r =>
    if c = 'x' ∨ c = 'X' then
      match dropW isWs r with
      | ']' :: rem => some rem
      | _ => none
    else none
  | [] => none

/-- `re.sub(r"\[\s*x\s*\]", "[ ]", target, count=1, flags=IGNORECASE)`:
rewrite the leftmost `[`-whitespace-`x`-whitespace-`]` occurrence to
`[ ]`. -/
def replBoxX : List Char → List Char
  | [] => []
  | c :: rest =>
    if c = '[' then
      match boxXTail rest with
      | some rem => '[' :: ' ' :: ']' :: rem
      | none => c :: replBoxX rest
    else c :: replBoxX rest

/-- The per-line toggle: `none` when the line matches neither checkbox
pattern (the endpoint then reports "Not a task line"). -/
def toggleLine (l : List Char) : Option (List Char) :=
  if lineMatchIncomplete l then some (replBoxEmpty l)
  else if lineMatchComplete l then some (replBoxX l)
  else none

/-- Rejoin mutated lines, restoring the original trailing newline. -/
def rebuild (ls : List (List Char)) (flag : Bool) : List Char :=
  joinNL ls ++ (if flag then ['\n'] else [])

/-- `toggle_todo` on a file's content: bounds-checked single-line
checkbox toggle; `(new content, message)`. -/
def toggle_todo (content : List Char) (line : Nat) :
    Except Nat (List Char × List Char) :=
  if line < 1 then .error 400
  else
    let lines := pySplitlines content
    if lines.length < line then .error 400
    else
      match toggleLine (getIdx [] lines (line - 1)) with
      | none => .ok (content, "Not a task line".data)
      | some l₂ =>
        .ok (rebuild (setIdx lines (line - 1) l₂) (endsNL content),
             "Task updated".data)

/-- The new content after a toggle (errors leave the content as is). -/
def toggleContent (content : List Char) (line : Nat) : List Char :=
  match toggle_todo content line with
  | .ok (c, _) => c
  | .error _ => content

/-- The line at 1-based index `n` of the content's `splitlines()`. -/
def lineAt (content : List Char) (n : Nat) : List Char :=
  getIdx [] (pySplitlines content) (n - 1)

/-- The pinned-header pattern `^###\s+.*<pinned>.*$` `IGNORECASE`:
`###`, at least one whitespace character, and `<pinned>` contained in
the rest (`.` matches everything in a newline-free line, so the match
condition is containment after the first mandatory whitespace). -/
def unpinTarget : List Char → Bool
  | '#' :: '#' :: '#' :: c :: rest => isWs c && containsPinnedCI rest
  | _ => false

/-- The tail after a `\s*<pinned>\s*` match (`IGNORECASE`) starting at
the current position, if any (both `\s*` runs are forced maximal: a
shorter run leaves a whitespace character where `<` or the end of the
match is required). -/
def wsPinnedTail (cs : List Char) : Option (List Char) :=
  let rest := dropW isWs cs
  if leadsWith "<pinned>".data (lowerList rest) then
    some (dropW isWs (rest.drop 8))
  else none

/-- `re.sub(r"\s*<pinned>\s*", "", target, flags=IGNORECASE)` with
explicit fuel: scan left to right, removing each (non-overlapping)
whitespace-`<pinned>`-whitespace occurrence; the remainder after a
match is scanned for further matches but never rescanned from earlier
positions.  Fuel `cs.length` suffices: every step consumes at least
one character. -/
def removePinnedFuel : Nat → List Char → List Char
  | 0, cs => cs
  | _ + 1, [] => []
  | fuel + 1, c :: rest =>
    match wsPinnedTail (c :: rest) with
    | some rem => removePinnedFuel fuel rem
    | none => c :: removePinnedFuel fuel rest

/-- The pinned-marker removal on one line. -/
def removePinned (cs : List Char) : List Char :=
  removePinnedFuel cs.length cs

/-- `unpin_entry` on a file's content: bounds-checked removal of the
`<pinned>` marker (plus surrounding whitespace) from one `###` header
line, right-stripping that line; a line not matching the pinned-header
pattern is a no-op reported as already unpinned. -/
def unpin_entry (content : List Char) (line : Nat) :
    Except Nat (List Char × List Char) :=
  if line < 1 then .error 400
  else
    let lines := pySplitlines content
    if lines.length < line then .error 400
    else
      let target := getIdx [] lines (line - 1)
      if !unpinTarget target then .ok (content, "Entry already unpinned".data)
      else
        let l₂ := pyRstrip (removePinned target)
        .ok (rebuild (setIdx lines (line - 1) l₂) (endsNL content),
             "Entry unpinned".data)

/-! ## Person scoping (`person_relative_path`, `strip_person_path`) -/

/-- Python `str.lstrip("/")`. -/
def lstripSlash (cs : List Char) : List Char := dropW (fun c => c == '/') cs

/-- `person_relative_path`: normalize (strip whitespace, strip leading
slashes); empty and `.` map to the person's root; paths already scoped
to the person pass through; everything else is prefixed with
`<person>/`. -/
def person_relative_path (person relativePath : List Char) : List Char :=
  let normalized := lstripSlash (pyStrip relativePath)
  if normalized = [] ∨ normalized = ".".data then person
  else if leadsWith (person ++ ['/']) normalized ∨ normalized = person then
    normalized
  else person ++ '/' :: normalized

/-- `strip_person_path`: the person's root maps to `.`; a path scoped
under `<person>/` loses that scope; everything else passes through. -/
def strip_person_path (person relativePath : List Char) : List Char :=
  if relativePath = person then ".".data
  else if leadsWith (person ++ ['/']) relativePath then
    relativePath.drop (person.length + 1)
  else relativePath

/-! ## Statement ingredients -/

/-- A line on which the checkbox toggle is involutive: an incomplete
checkbox in the canonical form `[ ]` (one space), a complete checkbox
in the canonical lowercase form `[x]`, or a line matching neither
checkbox pattern (`\s*` stands for any run of whitespace before the
`-` and before the `[`; the tail `r` is arbitrary). -/
def canonicalToggleLine (l : List Char) : Prop :=
  (∃ w₁ w₂ r, (∀ c ∈ w₁, isWs c = true) ∧ (∀ c ∈ w₂, isWs c = true) ∧
    l = w₁ ++ '-' :: (w₂ ++ '[' :: ' ' :: ']' :: r)) ∨
  (∃ w₁ w₂ r, (∀ c ∈ w₁, isWs c = true) ∧ (∀ c ∈ w₂, isWs c = true) ∧
    l = w₁ ++ '-' :: (w₂ ++ '[' :: 'x' :: ']' :: r)) ∨
  (lineMatchIncomplete l = false ∧ lineMatchComplete l = false)

/-- The previous day's note body of the materializer scenario. -/
def prevDailyBody : List Char :=
  "## todos\n\n- [ ] buy milk\n- [x] call bob\n\n## custom notes\n\n### 09:00 <pinned>\n\nremember X\n".data

/-! # Theorems -/

/-! ## Generic list lemmas -/

theorem leadsWith_self_append {α : Type} [DecidableEq α] (a b : List α) :
    leadsWith a (a ++ b) = true := by
  induction a with
  | nil => rfl
  | cons x xs ih => simp [leadsWith, ih]

theorem append_cons_ne_left {α : Type} (xs : List α) (c : α) (ys : List α) :
    xs ++ c :: ys ≠ xs := by
  intro h
  have := congrArg List.length h
  simp at this

theorem drop_append_cons {α : Type} (xs : List α) (c : α) (ys : List α) :
    (xs ++ c :: ys).drop (xs.length + 1) = ys := by
  induction xs with
  | nil => simp
  | cons x xs ih => simpa using ih

/-! ## C1: path confinement -/

/--
C1.  `resolve_path` raises an invalid-path error exactly for the empty
and the absolute inputs; otherwise it resolves the path against the
vault root and raises a path-escape error exactly when the resolved
path is neither the vault root nor below it, returning the resolved
path in the remaining case.  In particular `resolve_path` rejects
`"../../etc/passwd"` (path escape) and `"/etc/passwd"` (invalid path),
and `read_entry` on those inputs fails identically for every
filesystem, without consulting it.
-/
theorem c1_resolve_path_confinement :
    (∀ p, resolve_path p = .error .invalidPath ↔
      (p = [] ∨ isAbsolutePath p = true)) ∧
    (∀ p r, resolve_path p = .ok r ↔
      (p ≠ [] ∧ isAbsolutePath p = false ∧
       leadsWith VAULT_ROOT (resolvedFull p) = true ∧ r = resolvedFull p)) ∧
    (∀ p, resolve_path p = .error .pathEscape ↔
      (p ≠ [] ∧ isAbsolutePath p = false ∧
       leadsWith VAULT_ROOT (resolvedFull p) = false)) ∧
    resolve_path "../../etc/passwd".data = .error .pathEscape ∧
    resolve_path "/etc/passwd".data = .error .invalidPath ∧
    (∀ fs, read_entry fs "../../etc/passwd".data = .error .pathEscape ∧
           read_entry fs "/etc/passwd".data = .error .invalidPath) := by
  refine ⟨?_, ?_, ?_, by decide, by decide, ?_⟩
  · intro p
    unfold resolve_path
    split_ifs with h₁ h₂ h₃ <;> simp_all
  · intro p r
    unfold resolve_path
    split_ifs with h₁ h₂ h₃
    · simp [h₁]
    · simp [h₂]
    · have h₂' : isAbsolutePath p = false := by simpa using h₂
      simp only [Except.ok.injEq]
      constructor
      · intro h
        exact ⟨h₁, h₂', h₃, h.symm⟩
      · intro h
        exact h.2.2.2.symm
    · have h₃' : leadsWith VAULT_ROOT (resolvedFull p) = false := by simpa using h₃
      simp [h₃']
  · intro p
    unfold resolve_path
    split_ifs with h₁ h₂ h₃ <;> simp_all
  · intro fs
    constructor
    · unfold read_entry
      rw [show resolve_path "../../etc/passwd".data = .error .pathEscape from by decide]
    · unfold read_entry
      rw [show resolve_path "/etc/passwd".data = .error .invalidPath from by decide]

/-! ## C3: commit-and-push never surfaces a hard failure -/

/--
C3.  On every execution path of `git_commit_and_push` with the git
directory present — clean tree, successful push, push failure with
pull-and-retry, failed retry, or a subprocess error raised during
status/add/commit — the returned pair has `success = true` (the
function is total, so no exception escapes).
-/
theorem c3_commit_push_never_fails :
    ∀ (w : GitWorld) (message : List Char),
      w.gitExists = true → (git_commit_and_push w message).1 = true := by
  intro w message h
  unfold git_commit_and_push
  repeat' split
  all_goals rfl

/-- Witness for C3 at a concrete world (all subprocesses succeed). -/
theorem c3_commit_push_never_fails_witness :
    (git_commit_and_push ⟨true, true, none, .ok "M a".data, .ok (), .ok (), true, true⟩
      "Update notes".data).1 = true :=
  c3_commit_push_never_fails _ _ rfl

/-! ## C10: person scoping round trip -/

/--
C10.  For every person and path whose normalized form (whitespace
stripped, leading slashes removed) is non-empty, not `.`, not the
person, and not already prefixed by `<person>/`, stripping after
prefixing returns the normalized path.
-/
theorem c10_person_path_round_trip :
    ∀ person path, lstripSlash (pyStrip path) ≠ [] →
      lstripSlash (pyStrip path) ≠ ".".data →
      lstripSlash (pyStrip path) ≠ person →
      leadsWith (person ++ ['/']) (lstripSlash (pyStrip path)) = false →
      strip_person_path person (person_relative_path person path) =
        lstripSlash (pyStrip path) := by
  intro person path h₁ h₂ h₃ h₄
  unfold person_relative_path
  rw [if_neg (by simp [h₁, h₂]), if_neg (by simp [h₃, h₄])]
  unfold strip_person_path
  rw [if_neg (append_cons_ne_left person '/' _)]
  have hl : leadsWith (person ++ ['/']) (person ++ '/' :: lstripSlash (pyStrip path)) = true := by
    simpa using leadsWith_self_append (person ++ ['/']) (lstripSlash (pyStrip path))
  rw [if_pos hl]
  exact drop_append_cons person '/' _

/-- Witness for C10 at a concrete person and path. -/
theorem c10_person_path_round_trip_witness :
    strip_person_path "sebastian".data
      (person_relative_path "sebastian".data " daily/x.md ".data) =
      lstripSlash (pyStrip " daily/x.md ".data) :=
  c10_person_path_round_trip "sebastian".data " daily/x.md ".data
    (by decide) (by decide) (by decide) (by decide)

/-! ## C7: section lookup -/

theorem sectionBody_eq_dropW (name : List Char) :
    ∀ ls, sectionBody name ls =
      match dropW (fun l => !sectionHeaderLine name l) ls with
      | [] => none
      | _ :: rest => some (takeW (fun x => !isH2 x) rest) := by
  intro ls
  induction ls with
  | nil => rfl
  | cons l ls ih =>
    by_cases h : sectionHeaderLine name l
    · simp [sectionBody, dropW, h]
    · simp [sectionBody, dropW, h, ih]

/--
C7 counterexample.  Two failures of the claim as stated.  (1) On
`"## notes\n  x  "` the code strips the body to `"x"`, while trimming
only leading/trailing blank lines keeps the edge line as `"  x  "`.
(2) On `"##\ntodos\n- [x] a\nbody"` with the name `todos`, no LINE
matches the header pattern (the Python `\s+` match spans the newline),
yet the program returns the non-empty body `"- [x] a\nbody"` where the
claim's per-line reading demands the empty string.
-/
theorem c7_find_section_counterexample :
    (extract_section "## notes\n  x  ".data "notes".data = "x".data ∧
     find_section_claim "## notes\n  x  ".data "notes".data = "  x  ".data ∧
     "x".data ≠ "  x  ".data) ∧
    (extract_section "##\ntodos\n- [x] a\nbody".data "todos".data =
       "- [x] a\nbody".data ∧
     find_section_claim "##\ntodos\n- [x] a\nbody".data "todos".data = []) := by
  decide

/--
C7 (amended).  For every document and every regex-literal section name
(no regex metacharacter, no newline — the code interpolates the name
unescaped into the pattern, so only such names match as exact text; a
name that is an invalid regex raises `re.error`, so "never an error"
fails there) other than `todos`, `find_section` returns the empty
string when no line matches `## <name>` + optional trailing whitespace
case-insensitively, and otherwise the lines after the first matching
header line up to but excluding the next `^## ` line (or the end),
with the joined body stripped of leading and trailing whitespace
(stronger than trimming blank lines).  For the name `todos` the header
pattern's `\s+` also matches newlines, so a header split as
`##`/`todos` across lines is found and its section returned.
-/
theorem c7_find_section_amended :
    (∀ content name, regexLiteralName name = true →
      lowerList name ≠ "todos".data →
      extract_section content name = find_section_spec content name) ∧
    extract_section "##\ntodos\n- [x] a\nbody".data "todos".data =
      "- [x] a\nbody".data := by
  constructor
  · intro content name _ hname
    unfold extract_section find_section_spec
    rw [if_neg hname, sectionBody_eq_dropW]
    cases dropW (fun l => !sectionHeaderLine name l) (splitOnNL content) with
    | nil => rfl
    | cons l rest => rfl
  · decide

/-! ## C6: incomplete-todo extraction -/

theorem incompleteLoop_eq_filterW :
    ∀ ls, incompleteLoop ls = filterW (fun l => !isCompletedTodoLine l) ls := by
  intro ls
  induction ls with
  | nil => rfl
  | cons l ls ih =>
    by_cases h : isCompletedTodoLine l
    · simp [incompleteLoop, filterW, h, ih]
    · simp [incompleteLoop, filterW, h, ih]

/--
C6.  `incomplete_todos` returns exactly the todos-section lines whose
own checkbox is not marked complete — dropping precisely the lines
matching `^\s*-\s*\[x\]` case-insensitively — in original order, joined
and trimmed of leading/trailing whitespace; it returns the empty string
when the todos section is absent (and, via the trim, when nothing
remains).
-/
theorem c6_incomplete_todos_filter :
    (∀ content, extract_incomplete_todos content =
      pyStrip (joinNL (filterW (fun l => !isCompletedTodoLine l)
        (splitOnNL (extract_section content "todos".data))))) ∧
    (∀ content, extract_section content "todos".data = [] →
      extract_incomplete_todos content = []) := by
  constructor
  · intro content
    simp only [extract_incomplete_todos, incompleteLoop_eq_filterW]
    by_cases h : extract_section content "todos".data = []
    · rw [if_pos h, h]
      decide
    · rw [if_neg h]
      split_ifs with h₂
      · exact h₂.symm
      · rfl
  · intro content h
    simp only [extract_incomplete_todos]
    rw [if_pos h]

/-! ## C5: pinned-entry extraction -/

theorem filterW_append {α : Type} (p : α → Bool) :
    ∀ a b, filterW p (a ++ b) = filterW p a ++ filterW p b := by
  intro a b
  induction a with
  | nil => rfl
  | cons x xs ih =>
    by_cases h : p x <;> simp [filterW, h, ih]

theorem pinnedLoop_eq_go :
    ∀ L acc cur isP,
      (∀ h t, cur = h :: t → isP = containsPinnedCI h) →
      pinnedLoop L acc cur isP =
        acc ++ (filterW spanPinned (entrySpansGo L cur)).map joinNL := by
  intro L
  induction L with
  | nil =>
    intro acc cur isP hinv
    cases cur with
    | nil => simp [pinnedLoop, pinnedFlush, entrySpansGo, filterW]
    | cons h t =>
      have hp := hinv h t rfl
      simp only [pinnedLoop, pinnedFlush, entrySpansGo, List.isEmpty_cons,
        Bool.not_false, Bool.and_true]
      cases hq : containsPinnedCI h
      · rw [hp, hq]
        simp [filterW, spanPinned, hq]
      · rw [hp, hq]
        simp [filterW, spanPinned, hq]
  | cons l ls ih =>
    intro acc cur isP hinv
    by_cases hl : isEntryHeader l
    · rw [show pinnedLoop (l :: ls) acc cur isP =
            pinnedLoop ls (pinnedFlush acc cur isP) [l] (containsPinnedCI l) from by
          simp [pinnedLoop, hl]]
      rw [ih _ _ _ (by intro h t heq; cases heq; rfl)]
      rw [show entrySpansGo (l :: ls) cur =
            (if cur.isEmpty then [] else [cur]) ++ entrySpansGo ls [l] from by
          simp [entrySpansGo, hl]]
      rw [filterW_append, List.map_append]
      cases cur with
      | nil => simp [pinnedFlush, filterW]
      | cons h t =>
        have hp := hinv h t rfl
        cases hq : containsPinnedCI h
        · rw [show pinnedFlush acc (h :: t) isP = acc from by
              simp [pinnedFlush, hp, hq]]
          simp [filterW, spanPinned, hq]
        · rw [show pinnedFlush acc (h :: t) isP = acc ++ [joinNL (h :: t)] from by
              simp [pinnedFlush, hp, hq]]
          simp [filterW, spanPinned, hq]
    · cases cur with
      | nil =>
        rw [show pinnedLoop (l :: ls) acc [] isP = pinnedLoop ls acc [] isP from by
            simp [pinnedLoop, hl]]
        rw [ih _ _ _ (by intro h t heq; cases heq)]
        rw [show entrySpansGo (l :: ls) [] = entrySpansGo ls [] from by
            simp [entrySpansGo, hl]]
      | cons h t =>
        rw [show pinnedLoop (l :: ls) acc (h :: t) isP =
              pinnedLoop ls acc ((h :: t) ++ [l]) isP from by
            simp [pinnedLoop, hl]]
        rw [ih _ _ _ (by
          intro h₂ t₂ heq
          rw [List.cons_append] at heq
          cases heq
          exact hinv h t rfl)]
        rw [show entrySpansGo (l :: ls) (h :: t) =
              entrySpansGo ls ((h :: t) ++ [l]) from by
            simp [entrySpansGo, hl]]

/--
C5 counterexample.  In a custom-notes section with three `###` entries
of which only the second is pinned and followed by a blank line, the
output is the entry's span including its trailing blank line — it is
not equal to the entry's trimmed text, contrary to the claim's
"trimmed".
-/
theorem c5_pinned_counterexample :
    extract_pinned_notes
      "## custom notes\n\n### one\n\na\n\n### two <pinned>\n\nb\n\n### three\n\nc".data =
      "### two <pinned>\n\nb\n".data ∧
    extract_pinned_notes
      "## custom notes\n\n### one\n\na\n\n### two <pinned>\n\nb\n\n### three\n\nc".data ≠
      "### two <pinned>\n\nb".data := by decide

/--
C5 (amended).  The pinned extractor returns exactly those `### ` entry
spans of the custom notes section whose header line contains `<pinned>`
case-insensitively, in original order, joined with one blank line
between the joined spans, including a trailing pinned entry reaching
the end of the section; each retained entry is its span verbatim
(header plus all lines up to the next `###` header or section end), so
a pinned entry followed by a blank line keeps that blank line and the
single-pinned-entry output is the span itself, not additionally
trimmed.
-/
theorem c5_pinned_entries_amended :
    (∀ content, extract_pinned_notes content = pinned_notes_spec content) ∧
    extract_pinned_notes
      "## custom notes\n\n### one\n\na\n\n### two <pinned>\n\nb\n\n### three\n\nc".data =
      "### two <pinned>\n\nb\n".data := by
  constructor
  · intro content
    simp only [extract_pinned_notes, pinned_notes_spec, entrySpans]
    by_cases h : extract_section content "custom notes".data = []
    · rw [if_pos h, if_pos h]
    · rw [if_neg h, if_neg h]
      rw [pinnedLoop_eq_go _ [] [] false (by intro h t heq; cases heq)]
      rfl
  · decide

/-! ## C4: the materializer's seeding scenario -/

/--
C4.  When today's note does not exist and the most recent other daily
note (first non-today filename in the reverse-lexicographically sorted
listing) has the scenario's body, the created note is exactly the
`# daily <date>` header followed by a `## todos` section containing
only `- [ ] buy milk` and a `## custom notes` section containing the
`### 09:00 <pinned>` entry verbatim with its body `remember X`.
-/
theorem c4_materializer_scenario :
    ∀ dateStr todayName files f readFile,
      get_most_recent_note files todayName = some f →
      readFile f = prevDailyBody →
      ensure_file_exists false dateStr todayName files readFile =
        some ("# daily ".data ++ dateStr ++
          "\n\n## todos\n\n- [ ] buy milk\n\n## custom notes\n\n### 09:00 <pinned>\n\nremember X\n\n".data) := by
  intro dateStr todayName files f readFile h₁ h₂
  have e₁ : extract_incomplete_todos prevDailyBody = "- [ ] buy milk".data := by
    decide
  have e₂ : extract_pinned_notes prevDailyBody =
      "### 09:00 <pinned>\n\nremember X".data := by
    decide
  simp only [ensure_file_exists, h₁, h₂, e₁, e₂]
  rw [if_neg (by decide), if_neg (by decide), if_neg (by decide)]
  simp only [List.append_assoc, List.cons_append, List.nil_append]

/-- Witness for C4 at a concrete directory listing and date. -/
theorem c4_materializer_scenario_witness :
    ensure_file_exists false "2025-06-02".data "2025-06-02.md".data
      ["2025-06-01.md".data] (fun _ => prevDailyBody) =
      some ("# daily ".data ++ "2025-06-02".data ++
        "\n\n## todos\n\n- [ ] buy milk\n\n## custom notes\n\n### 09:00 <pinned>\n\nremember X\n\n".data) :=
  c4_materializer_scenario "2025-06-02".data "2025-06-02.md".data
    ["2025-06-01.md".data] "2025-06-01.md".data (fun _ => prevDailyBody)
    (by decide) rfl

/-! ## Splitlines / join infrastructure for the line-indexed mutators -/

theorem splitOnChar_ne_nil (sep : Char) : ∀ cs, splitOnChar sep cs ≠ [] := by
  intro cs
  induction cs with
  | nil => simp [splitOnChar]
  | cons c rest ih =>
    by_cases h : c = sep
    · simp [splitOnChar, h]
    · simp only [splitOnChar, if_neg h]
      cases hs : splitOnChar sep rest with
      | nil => simp
      | cons l ls => simp

theorem not_mem_of_mem_splitOnChar (sep : Char) :
    ∀ cs l, l ∈ splitOnChar sep cs → sep ∉ l := by
  intro cs
  induction cs with
  | nil =>
    intro l hl
    simp [splitOnChar] at hl
    simp [hl]
  | cons c rest ih =>
    intro l hl
    by_cases h : c = sep
    · simp only [splitOnChar, if_pos h, List.mem_cons] at hl
      rcases hl with hl | hl
      · simp [hl]
      · exact ih l hl
    · simp only [splitOnChar, if_neg h] at hl
      cases hs : splitOnChar sep rest with
      | nil => exact absurd hs (splitOnChar_ne_nil sep rest)
      | cons x ls =>
        rw [hs] at hl
        simp only [List.mem_cons] at hl
        rcases hl with hl | hl
        · intro hmem
          rw [hl] at hmem
          rcases List.mem_cons.mp hmem with he | hmem₂
          · exact h he.symm
          · exact ih x (by rw [hs]; exact List.mem_cons_self x ls) hmem₂
        · exact ih l (by rw [hs]; exact List.mem_cons_of_mem x hl)

theorem splitOnNL_cons (c : Char) (rest : List Char) :
    splitOnNL (c :: rest) =
      if c = '\n' then [] :: splitOnNL rest
      else
        match splitOnNL rest with
        | [] => [[c]]
        | l :: ls => (c :: l) :: ls := rfl

theorem splitOnNL_append_cons :
    ∀ l t, '\n' ∉ l → splitOnNL (l ++ '\n' :: t) = l :: splitOnNL t := by
  intro l
  induction l with
  | nil =>
    intro t _
    simp [splitOnNL, splitOnChar]
  | cons c l ih =>
    intro t h
    have hc : c ≠ '\n' := fun he => h (he ▸ List.mem_cons_self c l)
    have hl : '\n' ∉ l := fun hm => h (List.mem_cons_of_mem c hm)
    rw [List.cons_append, splitOnNL_cons, if_neg hc, ih t hl]

theorem splitOnNL_of_not_mem : ∀ l, '\n' ∉ l → splitOnNL l = [l] := by
  intro l
  induction l with
  | nil => intro _; rfl
  | cons c l ih =>
    intro h
    have hc : c ≠ '\n' := fun he => h (he ▸ List.mem_cons_self c l)
    have hl : '\n' ∉ l := fun hm => h (List.mem_cons_of_mem c hm)
    rw [splitOnNL_cons, if_neg hc, ih hl]

theorem splitOnNL_joinNL :
    ∀ ls, ls ≠ [] → (∀ l ∈ ls, '\n' ∉ l) → splitOnNL (joinNL ls) = ls := by
  intro ls
  induction ls with
  | nil => intro h; exact absurd rfl h
  | cons l ls ih =>
    intro _ h₂
    cases ls with
    | nil => exact splitOnNL_of_not_mem l (h₂ l (List.mem_cons_self l []))
    | cons l₂ t =>
      rw [joinNL, splitOnNL_append_cons l _ (h₂ l (List.mem_cons_self l _))]
      rw [ih (by simp) (fun x hx => h₂ x (List.mem_cons_of_mem l hx))]

theorem splitOnNL_joinNL_newline :
    ∀ ls, ls ≠ [] → (∀ l ∈ ls, '\n' ∉ l) →
      splitOnNL (joinNL ls ++ ['\n']) = ls ++ [[]] := by
  intro ls
  induction ls with
  | nil => intro h; exact absurd rfl h
  | cons l ls ih =>
    intro _ h₂
    cases ls with
    | nil =>
      rw [joinNL, splitOnNL_append_cons l [] (h₂ l (List.mem_cons_self l []))]
      rfl
    | cons l₂ t =>
      rw [joinNL, List.append_assoc, List.cons_append]
      rw [splitOnNL_append_cons l _ (h₂ l (List.mem_cons_self l _))]
      rw [ih (by simp) (fun x hx => h₂ x (List.mem_cons_of_mem l hx))]
      rfl

theorem lastItem_cons_of_ne_nil {α : Type} (a : α) :
    ∀ ls, ls ≠ [] → lastItem (a :: ls) = lastItem ls := by
  intro ls h
  cases ls with
  | nil => exact absurd rfl h
  | cons b t => rfl

theorem lastItem_append_single {α : Type} : ∀ (xs : List α) (a : α),
    lastItem (xs ++ [a]) = some a := by
  intro xs
  induction xs with
  | nil => intro a; rfl
  | cons x xs ih =>
    intro a
    rw [List.cons_append, lastItem_cons_of_ne_nil x _ (by simp)]
    exact ih a

theorem dropLast_append_single {α : Type} : ∀ (xs : List α) (a : α),
    (xs ++ [a]).dropLast = xs := by
  intro xs a
  simp

theorem endsNL_append_single : ∀ xs c, endsNL (xs ++ [c]) = (c == '\n') := by
  intro xs c
  induction xs with
  | nil => rfl
  | cons x xs ih =>
    rw [List.cons_append, endsNL]
    simp only [List.isEmpty_eq_true, List.append_eq_nil, List.cons_ne_nil,
      and_false, if_false]
    exact ih

theorem endsNL_true_mem : ∀ cs, endsNL cs = true → '\n' ∈ cs := by
  intro cs
  induction cs with
  | nil => intro h; cases h
  | cons c rest ih =>
    intro h
    rw [endsNL] at h
    by_cases hr : rest.isEmpty
    · rw [if_pos hr] at h
      have : c = '\n' := by simpa using h
      simp [this]
    · rw [if_neg hr] at h
      exact List.mem_cons_of_mem c (ih h)

theorem endsNL_append_right : ∀ a b, b ≠ [] → endsNL (a ++ b) = endsNL b := by
  intro a
  induction a with
  | nil => intro b _; rfl
  | cons c a ih =>
    intro b hb
    rw [List.cons_append, endsNL, if_neg (by simp [hb])]
    exact ih b hb

theorem endsNL_joinNL :
    ∀ ls, (∀ l ∈ ls, '\n' ∉ l) → lastItem ls ≠ some [] →
      endsNL (joinNL ls) = false := by
  intro ls
  induction ls with
  | nil => intro _ _; rfl
  | cons l ls ih =>
    intro h₂ h₃
    cases ls with
    | nil =>
      rw [joinNL]
      cases he : endsNL l
      · rfl
      · exact absurd (endsNL_true_mem l he) (h₂ l (List.mem_cons_self l []))
    | cons l₂ t =>
      have h₃₂ : lastItem (l₂ :: t) ≠ some [] := h₃
      have hJ : joinNL (l₂ :: t) ≠ [] := by
        intro hj
        cases t with
        | nil =>
          rw [joinNL] at hj
          rw [hj] at h₃₂
          exact h₃₂ rfl
        | cons l₃ t₂ =>
          rw [joinNL] at hj
          simp at hj
      rw [joinNL, endsNL_append_right l _ (by simp), endsNL, if_neg (by simp [hJ])]
      exact ih (fun x hx => h₂ x (List.mem_cons_of_mem l hx)) h₃₂

theorem endsNL_rebuild :
    ∀ ls flag, (∀ l ∈ ls, '\n' ∉ l) → (flag = false → lastItem ls ≠ some []) →
      endsNL (rebuild ls flag) = flag := by
  intro ls flag h₂ h₃
  cases flag
  · rw [rebuild, if_neg (by simp), List.append_nil]
    exact endsNL_joinNL ls h₂ (h₃ rfl)
  · rw [rebuild, if_pos rfl, endsNL_append_single]
    rfl

theorem pySplitlines_rebuild :
    ∀ ls flag, ls ≠ [] → (∀ l ∈ ls, '\n' ∉ l) →
      (flag = false → lastItem ls ≠ some []) →
      pySplitlines (rebuild ls flag) = ls := by
  intro ls flag h₁ h₂ h₃
  cases flag
  · rw [rebuild, if_neg (by simp), List.append_nil]
    rw [pySplitlines, splitOnNL_joinNL ls h₁ h₂]
    rw [if_neg (by simp [h₃ rfl])]
  · rw [rebuild, if_pos rfl]
    rw [pySplitlines, splitOnNL_joinNL_newline ls h₁ h₂]
    rw [if_pos (by rw [lastItem_append_single])]
    simp

theorem splitOnNL_ne_nil : ∀ cs, splitOnNL cs ≠ [] :=
  fun cs => splitOnChar_ne_nil '\n' cs

theorem lastItem_splitOnNL_ne :
    ∀ cs, cs ≠ [] → endsNL cs = false → lastItem (splitOnNL cs) ≠ some [] := by
  intro cs
  induction cs with
  | nil => intro h; exact absurd rfl h
  | cons c rest ih =>
    intro _ h₂
    cases rest with
    | nil =>
      have hc : c ≠ '\n' := by
        intro he
        rw [he] at h₂
        exact absurd h₂ (by decide)
      rw [splitOnNL_cons, if_neg hc]
      intro h
      simp [lastItem] at h
    | cons c₂ t =>
      have h₂r : endsNL (c₂ :: t) = false := by
        rw [endsNL, if_neg (by simp)] at h₂
        exact h₂
      have ihr := ih (by simp) h₂r
      rw [splitOnNL_cons]
      by_cases hc : c = '\n'
      · rw [if_pos hc]
        rw [lastItem_cons_of_ne_nil _ _ (splitOnNL_ne_nil (c₂ :: t))]
        exact ihr
      · rw [if_neg hc]
        cases hs : splitOnNL (c₂ :: t) with
        | nil => exact absurd hs (splitOnNL_ne_nil (c₂ :: t))
        | cons x ls =>
          cases ls with
          | nil =>
            intro h
            simp [lastItem] at h
          | cons y ls₂ =>
            rw [lastItem_cons_of_ne_nil _ _ (by simp)]
            rw [hs] at ihr
            rw [lastItem_cons_of_ne_nil _ _ (by simp)] at ihr
            exact ihr

theorem pySplitlines_of_not_endsNL :
    ∀ cs, cs ≠ [] → endsNL cs = false → pySplitlines cs = splitOnNL cs := by
  intro cs h₁ h₂
  rw [pySplitlines, if_neg (by simp [lastItem_splitOnNL_ne cs h₁ h₂])]

theorem noNL_pySplitlines : ∀ cs l, l ∈ pySplitlines cs → '\n' ∉ l := by
  intro cs l hl
  rw [pySplitlines] at hl
  split_ifs at hl with h
  · exact not_mem_of_mem_splitOnChar '\n' cs l (List.dropLast_subset _ hl)
  · exact not_mem_of_mem_splitOnChar '\n' cs l hl

theorem length_setIdx {α : Type} : ∀ (ls : List α) i a,
    (setIdx ls i a).length = ls.length := by
  intro ls
  induction ls with
  | nil => intro i a; rfl
  | cons x t ih =>
    intro i a
    cases i with
    | zero => rfl
    | succ n => simp [setIdx, ih]

theorem getIdx_setIdx_self {α : Type} (d : α) : ∀ (ls : List α) i a,
    i < ls.length → getIdx d (setIdx ls i a) i = a := by
  intro ls
  induction ls with
  | nil => intro i a h; simp at h
  | cons x t ih =>
    intro i a h
    cases i with
    | zero => rfl
    | succ n =>
      rw [setIdx, getIdx]
      exact ih n a (by simpa using h)

theorem mem_setIdx {α : Type} : ∀ (ls : List α) i a x,
    x ∈ setIdx ls i a → x ∈ ls ∨ x = a := by
  intro ls
  induction ls with
  | nil => intro i a x h; simp [setIdx] at h
  | cons y t ih =>
    intro i a x h
    cases i with
    | zero =>
      rcases List.mem_cons.mp h with h | h
      · exact Or.inr h
      · exact Or.inl (List.mem_cons_of_mem y h)
    | succ n =>
      rcases List.mem_cons.mp h with h | h
      · exact Or.inl (h ▸ List.mem_cons_self y t)
      · rcases ih n a x h with h | h
        · exact Or.inl (List.mem_cons_of_mem y h)
        · exact Or.inr h

theorem lastItem_setIdx {α : Type} : ∀ (ls : List α) i a, i < ls.length →
    lastItem (setIdx ls i a) = if i + 1 = ls.length then some a else lastItem ls := by
  intro ls
  induction ls with
  | nil => intro i a h; simp at h
  | cons x t ih =>
    intro i a h
    cases i with
    | zero =>
      cases t with
      | nil => rfl
      | cons y t₂ =>
        rw [setIdx, lastItem_cons_of_ne_nil a _ (by simp)]
        rw [if_neg (by simp)]
        rw [lastItem_cons_of_ne_nil x _ (by simp)]
    | succ n =>
      have hn : n < t.length := by simpa using h
      have ht : t ≠ [] := by
        intro he
        rw [he] at hn
        simp at hn
      have hset : setIdx t n a ≠ [] := by
        intro he
        have := length_setIdx t n a
        rw [he] at this
        rw [← this] at hn
        simp at hn
      rw [setIdx, lastItem_cons_of_ne_nil _ _ hset, ih n a hn,
        lastItem_cons_of_ne_nil _ _ ht]
      by_cases he : n + 1 = t.length
      · rw [if_pos he, if_pos (by simp [he])]
      · rw [if_neg he, if_neg (by simpa using he)]

theorem getIdx_mem {α : Type} (d : α) : ∀ (ls : List α) i,
    i < ls.length → getIdx d ls i ∈ ls := by
  intro ls
  induction ls with
  | nil => intro i h; simp at h
  | cons x t ih =>
    intro i h
    cases i with
    | zero => exact List.mem_cons_self x t
    | succ n => exact List.mem_cons_of_mem x (ih n (by simpa using h))

theorem dropW_subset {α : Type} (p : α → Bool) : ∀ (ls : List α) x,
    x ∈ dropW p ls → x ∈ ls := by
  intro ls
  induction ls with
  | nil => intro x h; simp [dropW] at h
  | cons y t ih =>
    intro x h
    rw [dropW] at h
    split_ifs at h with hp
    · exact List.mem_cons_of_mem y (ih x h)
    · exact h

/-- The shared core of the mutator proofs: rewriting one in-range line
with a newline-free, non-empty replacement commutes with `splitlines`
and preserves the trailing-newline flag. -/
theorem mutate_glue (content : List Char) (n : Nat) (l₂ : List Char)
    (h₁ : 1 ≤ n) (h₂ : n ≤ (pySplitlines content).length)
    (h₃ : '\n' ∉ l₂) (h₄ : l₂ ≠ []) :
    pySplitlines (rebuild (setIdx (pySplitlines content) (n - 1) l₂) (endsNL content)) =
      setIdx (pySplitlines content) (n - 1) l₂ ∧
    endsNL (rebuild (setIdx (pySplitlines content) (n - 1) l₂) (endsNL content)) =
      endsNL content := by
  have hi : n - 1 < (pySplitlines content).length := by omega
  have hnoNL : ∀ l ∈ setIdx (pySplitlines content) (n - 1) l₂, '\n' ∉ l := by
    intro l hl
    rcases mem_setIdx _ _ _ _ hl with hl | hl
    · exact noNL_pySplitlines content l hl
    · exact hl ▸ h₃
  have hne : setIdx (pySplitlines content) (n - 1) l₂ ≠ [] := by
    intro he
    have := length_setIdx (pySplitlines content) (n - 1) l₂
    rw [he] at this
    rw [← this] at hi
    simp at hi
  have hlast : endsNL content = false →
      lastItem (setIdx (pySplitlines content) (n - 1) l₂) ≠ some [] := by
    intro hf
    rw [lastItem_setIdx _ _ _ hi]
    split_ifs with he
    · simp [h₄]
    · have hcne : content ≠ [] := by
        intro hc
        rw [hc, show pySplitlines [] = [] from rfl] at hi
        simp at hi
      rw [pySplitlines_of_not_endsNL content hcne hf]
      exact lastItem_splitOnNL_ne content hcne hf
  exact ⟨pySplitlines_rebuild _ _ hne hnoNL hlast,
    endsNL_rebuild _ _ hnoNL hlast⟩

/-! ## Character content of the line rewrites -/

theorem replBoxEmpty_mem : ∀ (l : List Char) x, x ∈ replBoxEmpty l →
    x ∈ l ∨ x = '[' ∨ x = 'x' ∨ x = ']' := by
  intro l
  induction l with
  | nil => intro x h; simp [replBoxEmpty] at h
  | cons c rest ih =>
    intro x hx
    have hcons : x ∈ c :: replBoxEmpty rest → x ∈ c :: rest ∨ x = '[' ∨ x = 'x' ∨ x = ']' := by
      intro h
      rcases List.mem_cons.mp h with h | h
      · exact Or.inl (h ▸ List.mem_cons_self c rest)
      · rcases ih x h with h | h
        · exact Or.inl (List.mem_cons_of_mem c h)
        · exact Or.inr h
    rw [replBoxEmpty] at hx
    split_ifs at hx with hc
    · split at hx
      · next r₂ heq =>
        simp only [List.mem_cons] at hx
        rcases hx with h | h | h | h
        · exact Or.inr (Or.inl h)
        · exact Or.inr (Or.inr (Or.inl h))
        · exact Or.inr (Or.inr (Or.inr h))
        · refine Or.inl (List.mem_cons_of_mem c (dropW_subset isWs rest x ?_))
          rw [heq]
          exact List.mem_cons_of_mem ']' h
      · exact hcons hx
    · exact hcons hx

theorem boxXTail_subset : ∀ rest rem, boxXTail rest = some rem →
    ∀ x ∈ rem, x ∈ rest := by
  intro rest rem h x hx
  rw [boxXTail] at h
  split at h
  · rename_i c r heq
    split_ifs at h with hc
    split at h
    · rename_i rem₂ heq₂
      cases h
      refine dropW_subset isWs rest x ?_
      rw [heq]
      refine List.mem_cons_of_mem c (dropW_subset isWs r x ?_)
      rw [heq₂]
      exact List.mem_cons_of_mem ']' hx
    · cases h
  · cases h

theorem replBoxX_mem : ∀ (l : List Char) x, x ∈ replBoxX l →
    x ∈ l ∨ x = '[' ∨ x = ' ' ∨ x = ']' := by
  intro l
  induction l with
  | nil => intro x h; simp [replBoxX] at h
  | cons c rest ih =>
    intro x hx
    have hcons : x ∈ c :: replBoxX rest → x ∈ c :: rest ∨ x = '[' ∨ x = ' ' ∨ x = ']' := by
      intro h
      rcases List.mem_cons.mp h with h | h
      · exact Or.inl (h ▸ List.mem_cons_self c rest)
      · rcases ih x h with h | h
        · exact Or.inl (List.mem_cons_of_mem c h)
        · exact Or.inr h
    rw [replBoxX] at hx
    split_ifs at hx with hc
    · split at hx
      · next rem heq =>
        simp only [List.mem_cons] at hx
        rcases hx with h | h | h | h
        · exact Or.inr (Or.inl h)
        · exact Or.inr (Or.inr (Or.inl h))
        · exact Or.inr (Or.inr (Or.inr h))
        · exact Or.inl (List.mem_cons_of_mem c (boxXTail_subset rest rem heq x h))
      · exact hcons hx
    · exact hcons hx

theorem replBoxEmpty_ne_nil : ∀ l, l ≠ [] → replBoxEmpty l ≠ [] := by
  intro l h
  cases l with
  | nil => exact absurd rfl h
  | cons c rest =>
    rw [replBoxEmpty]
    split_ifs <;> first | (split <;> simp) | simp

theorem replBoxX_ne_nil : ∀ l, l ≠ [] → replBoxX l ≠ [] := by
  intro l h
  cases l with
  | nil => exact absurd rfl h
  | cons c rest =>
    rw [replBoxX]
    split_ifs <;> first | (split <;> simp) | simp

theorem wsPinnedTail_subset : ∀ cs rem, wsPinnedTail cs = some rem →
    ∀ x ∈ rem, x ∈ cs := by
  intro cs rem h x hx
  rw [wsPinnedTail] at h
  split_ifs at h
  cases h
  refine dropW_subset isWs cs x ?_
  exact List.drop_subset 8 _ (dropW_subset isWs _ x hx)

theorem removePinnedFuel_mem : ∀ fuel cs x,
    x ∈ removePinnedFuel fuel cs → x ∈ cs := by
  intro fuel
  induction fuel with
  | zero => intro cs x h; exact h
  | succ f ih =>
    intro cs x h
    cases cs with
    | nil => exact h
    | cons c rest =>
      rw [removePinnedFuel] at h
      split at h
      · next rem heq => exact wsPinnedTail_subset _ _ heq x (ih rem x h)
      · rcases List.mem_cons.mp h with h | h
        · exact h ▸ List.mem_cons_self c rest
        · exact List.mem_cons_of_mem c (ih rest x h)

theorem removePinned_mem : ∀ cs x, x ∈ removePinned cs → x ∈ cs :=
  fun cs x h => removePinnedFuel_mem cs.length cs x h

theorem pyRstrip_mem : ∀ cs x, x ∈ pyRstrip cs → x ∈ cs := by
  intro cs x h
  rw [pyRstrip] at h
  rw [List.mem_reverse] at h
  have := dropW_subset isWs _ x h
  rwa [List.mem_reverse] at this

theorem dropW_append_single_ne_nil {α : Type} (p : α → Bool) :
    ∀ (xs : List α) a, p a = false → dropW p (xs ++ [a]) ≠ [] := by
  intro xs
  induction xs with
  | nil =>
    intro a h
    rw [List.nil_append, dropW, if_neg (by simp [h])]
    simp
  | cons x t ih =>
    intro a h
    rw [List.cons_append, dropW]
    split_ifs
    · exact ih a h
    · simp

theorem pyRstrip_cons_ne_nil : ∀ c u, isWs c = false → pyRstrip (c :: u) ≠ [] := by
  intro c u h
  rw [pyRstrip, List.reverse_cons]
  intro he
  rw [List.reverse_eq_nil_iff] at he
  exact dropW_append_single_ne_nil isWs u.reverse c h he

theorem removePinnedFuel_hash : ∀ fuel t,
    removePinnedFuel (fuel + 1) ('#' :: t) = '#' :: removePinnedFuel fuel t := by
  intro fuel t
  have hw : wsPinnedTail ('#' :: t) = none := by
    rw [wsPinnedTail]
    rw [show dropW isWs ('#' :: t) = '#' :: t from by
      rw [dropW, if_neg (by decide)]]
    rw [if_neg (by simp [lowerList, leadsWith, show Char.toLower '#' = '#' from by decide])]
  rw [removePinnedFuel, hw]

theorem unpinTarget_shape : ∀ l, unpinTarget l = true →
    ∃ c rest, l = '#' :: '#' :: '#' :: c :: rest ∧ isWs c = true ∧
      containsPinnedCI rest = true := by
  intro l h
  rw [unpinTarget.eq_def] at h
  split at h
  · next c rest =>
    exact ⟨c, rest, rfl, (Bool.and_eq_true_iff.mp h).1, (Bool.and_eq_true_iff.mp h).2⟩
  · cases h

theorem removePinned_cons_hash : ∀ t,
    removePinned ('#' :: t) = '#' :: removePinnedFuel t.length t := by
  intro t
  rw [removePinned, List.length_cons, removePinnedFuel_hash]

/-- A successful single-line toggle yields a newline-free, non-empty
replacement line. -/
theorem toggleLine_some_props : ∀ target l₂, '\n' ∉ target →
    toggleLine target = some l₂ → '\n' ∉ l₂ ∧ l₂ ≠ [] := by
  intro target l₂ ht h
  rw [toggleLine] at h
  split_ifs at h with hm₁ hm₂
  · cases h
    constructor
    · intro hmem
      rcases replBoxEmpty_mem target '\n' hmem with hh | hh | hh | hh
      · exact ht hh
      · exact absurd hh (by decide)
      · exact absurd hh (by decide)
      · exact absurd hh (by decide)
    · refine replBoxEmpty_ne_nil target ?_
      intro he
      rw [he] at hm₁
      exact absurd hm₁ (by decide)
  · cases h
    constructor
    · intro hmem
      rcases replBoxX_mem target '\n' hmem with hh | hh | hh | hh
      · exact ht hh
      · exact absurd hh (by decide)
      · exact absurd hh (by decide)
      · exact absurd hh (by decide)
    · refine replBoxX_ne_nil target ?_
      intro he
      rw [he] at hm₂
      exact absurd hm₂ (by decide)

/-- The line written by a successful unpin is newline-free and
non-empty (it still starts with `#`). -/
theorem unpin_line_props : ∀ target, '\n' ∉ target → unpinTarget target = true →
    '\n' ∉ pyRstrip (removePinned target) ∧ pyRstrip (removePinned target) ≠ [] := by
  intro target ht h
  constructor
  · intro hmem
    exact ht (removePinned_mem _ _ (pyRstrip_mem _ _ hmem))
  · obtain ⟨c, rest, hshape, _, _⟩ := unpinTarget_shape target h
    rw [hshape, removePinned_cons_hash]
    exact pyRstrip_cons_ne_nil '#' _ (by decide)

/-! ## C8: trailing-newline preservation -/

/--
C8.  Both whole-file rewrites — the checkbox toggle and the unpin —
preserve the trailing-newline flag: on every successful outcome the
rewritten content ends with a newline exactly when the original did.
-/
theorem c8_trailing_newline_preserved :
    (∀ content n out msg, toggle_todo content n = .ok (out, msg) →
       endsNL out = endsNL content) ∧
    (∀ content n out msg, unpin_entry content n = .ok (out, msg) →
       endsNL out = endsNL content) := by
  constructor
  · intro content n out msg h
    simp only [toggle_todo] at h
    split_ifs at h with hb₁ hb₂
    have hi : n - 1 < (pySplitlines content).length := by omega
    split at h
    · cases h
      rfl
    · next l₂ heq =>
      cases h
      have ht : '\n' ∉ getIdx [] (pySplitlines content) (n - 1) :=
        noNL_pySplitlines content _ (getIdx_mem [] _ _ hi)
      obtain ⟨h₃, h₄⟩ := toggleLine_some_props _ _ ht heq
      exact (mutate_glue content n l₂ (by omega) (by omega) h₃ h₄).2
  · intro content n out msg h
    simp only [unpin_entry] at h
    split_ifs at h with hb₁ hb₂ hb₃
    · cases h
      rfl
    · have hi : n - 1 < (pySplitlines content).length := by omega
      cases h
      have hu : unpinTarget (getIdx [] (pySplitlines content) (n - 1)) = true := by
        simpa using hb₃
      have ht : '\n' ∉ getIdx [] (pySplitlines content) (n - 1) :=
        noNL_pySplitlines content _ (getIdx_mem [] _ _ hi)
      obtain ⟨h₃, h₄⟩ := unpin_line_props _ ht hu
      exact (mutate_glue content n _ (by omega) (by omega) h₃ h₄).2

/-! ## C9: unpin idempotence -/

theorem containsPinnedCI_cons : ∀ (c : Char) rest,
    containsPinnedCI rest = true → containsPinnedCI (c :: rest) = true := by
  intro c rest h
  rw [containsPinnedCI, lowerList, List.map_cons, containsSub]
  rw [containsPinnedCI, lowerList] at h
  simp [h]

theorem unpinTarget_false_of_no_marker : ∀ l, containsPinnedCI l = false →
    unpinTarget l = false := by
  intro l h
  cases hu : unpinTarget l
  · rfl
  · obtain ⟨c, rest, hshape, _, hpin⟩ := unpinTarget_shape l hu
    rw [hshape] at h
    have := containsPinnedCI_cons '#' _ (containsPinnedCI_cons '#' _
      (containsPinnedCI_cons '#' _ (containsPinnedCI_cons c _ hpin)))
    rw [h] at this
    cases this

/--
C9 counterexample.  Removing every `\s*<pinned>\s*` occurrence from
`### x <pin<pinned>ned>` splices the surrounding text into a new
`<pinned>` marker, so after one successful unpin the second application
is NOT a no-op: it reports "Entry unpinned" again (not "already
unpinned") and changes the document.
-/
theorem c9_unpin_counterexample :
    unpin_entry "### x <pin<pinned>ned>\n".data 1 =
      .ok ("### x <pinned>\n".data, "Entry unpinned".data) ∧
    unpin_entry "### x <pinned>\n".data 1 =
      .ok ("### x\n".data, "Entry unpinned".data) ∧
    "### x\n".data ≠ "### x <pinned>\n".data ∧
    "Entry unpinned".data ≠ "Entry already unpinned".data := by decide

/--
C9 (amended).  After one successful application of `unpin_line`, a
second application to the same line is a no-op that reports "Entry
already unpinned" and leaves the document unchanged, PROVIDED the
rewritten line no longer contains the `<pinned>` marker — which can
fail only when the marker removal splices surrounding text into a new
`<pinned>` occurrence (nested marker-like spans).
-/
theorem c9_unpin_idempotent_amended :
    ∀ content n out, 1 ≤ n → n ≤ (pySplitlines content).length →
      unpin_entry content n = .ok (out, "Entry unpinned".data) →
      containsPinnedCI (lineAt out n) = false →
      unpin_entry out n = .ok (out, "Entry already unpinned".data) := by
  intro content n out h₁ h₂ h hmark
  simp only [unpin_entry] at h
  split_ifs at h with hb₁ hb₂ hb₃
  · exfalso
    rw [Except.ok.injEq, Prod.mk.injEq] at h
    exact absurd h.2 (by decide)
  · rw [Except.ok.injEq, Prod.mk.injEq] at h
    obtain ⟨hout, _⟩ := h
    have hi : n - 1 < (pySplitlines content).length := by omega
    have hu : unpinTarget (getIdx [] (pySplitlines content) (n - 1)) = true := by
      simpa using hb₃
    have ht : '\n' ∉ getIdx [] (pySplitlines content) (n - 1) :=
      noNL_pySplitlines content _ (getIdx_mem [] _ _ hi)
    obtain ⟨h₃, h₄⟩ := unpin_line_props _ ht hu
    have hglue := mutate_glue content n
      (pyRstrip (removePinned (getIdx [] (pySplitlines content) (n - 1))))
      (by omega) (by omega) h₃ h₄
    subst hout
    have htgt : getIdx [] (setIdx (pySplitlines content) (n - 1)
        (pyRstrip (removePinned (getIdx [] (pySplitlines content) (n - 1))))) (n - 1) =
        pyRstrip (removePinned (getIdx [] (pySplitlines content) (n - 1))) :=
      getIdx_setIdx_self [] _ _ _ hi
    have hm₂ : containsPinnedCI
        (pyRstrip (removePinned (getIdx [] (pySplitlines content) (n - 1)))) = false := by
      rw [lineAt, hglue.1, htgt] at hmark
      exact hmark
    simp only [unpin_entry]
    rw [if_neg (by omega)]
    rw [hglue.1]
    rw [if_neg (by rw [length_setIdx]; omega)]
    rw [htgt]
    rw [if_pos (by simp [unpinTarget_false_of_no_marker _ hm₂])]

/-- Witness for C9 at a concrete pinned daily-note line. -/
theorem c9_unpin_idempotent_witness :
    unpin_entry "### 09:00\nx\n".data 1 =
      .ok ("### 09:00\nx\n".data, "Entry already unpinned".data) :=
  c9_unpin_idempotent_amended "### 09:00 <pinned>\nx\n".data 1 "### 09:00\nx\n".data
    (by decide) (by decide) (by decide) (by decide)

/-! ## C2: checkbox toggle involution -/

theorem dropW_all_append {α : Type} (p : α → Bool) :
    ∀ w cs, (∀ c ∈ w, p c = true) → dropW p (w ++ cs) = dropW p cs := by
  intro w
  induction w with
  | nil => intro cs _; rfl
  | cons a t ih =>
    intro cs h
    rw [List.cons_append, dropW, if_pos (h a (List.mem_cons_self a t))]
    exact ih cs (fun c hc => h c (List.mem_cons_of_mem a hc))

theorem dropW_cons_false {α : Type} (p : α → Bool) (c : α) (cs : List α)
    (h : p c = false) : dropW p (c :: cs) = c :: cs := by
  rw [dropW, if_neg (by simp [h])]

/-- The scanner state after `^\s*-` has been consumed, continuing with
`\s*\[\s*\]` (the incomplete-checkbox pattern's tail). -/
def matchIncompleteCore (r : List Char) : Bool :=
  match dropW isWs r with
  | '[' :: r₂ =>
    match dropW isWs r₂ with
    | ']' :: _ => true
    | _ => false
  | _ => false

/-- The scanner state after `^\s*-`, continuing with `\s*\[x\]`
(the complete-checkbox pattern's tail, case-insensitive). -/
def matchCompleteCore (r : List Char) : Bool :=
  match dropW isWs r with
  | '[' :: c :: ']' :: _ => c == 'x' || c == 'X'
  | _ => false

theorem lineMatchIncomplete_eq_core : ∀ l, lineMatchIncomplete l =
    (match dropW isWs l with
     | '-' :: r => matchIncompleteCore r
     | _ => false) := fun _ => rfl

theorem lineMatchComplete_eq_core : ∀ l, lineMatchComplete l =
    (match dropW isWs l with
     | '-' :: r => matchCompleteCore r
     | _ => false) := fun _ => rfl

theorem lineMatchIncomplete_space_box : ∀ w₁ w₂ r,
    (∀ c ∈ w₁, isWs c = true) → (∀ c ∈ w₂, isWs c = true) →
    lineMatchIncomplete (w₁ ++ '-' :: (w₂ ++ '[' :: ' ' :: ']' :: r)) = true := by
  intro w₁ w₂ r hw₁ hw₂
  rw [lineMatchIncomplete_eq_core, dropW_all_append isWs w₁ _ hw₁,
    dropW_cons_false isWs '-' _ (by decide)]
  show matchIncompleteCore (w₂ ++ '[' :: ' ' :: ']' :: r) = true
  rw [matchIncompleteCore, dropW_all_append isWs w₂ _ hw₂,
    dropW_cons_false isWs '[' _ (by decide)]
  rfl

theorem lineMatchIncomplete_x_box : ∀ w₁ w₂ r,
    (∀ c ∈ w₁, isWs c = true) → (∀ c ∈ w₂, isWs c = true) →
    lineMatchIncomplete (w₁ ++ '-' :: (w₂ ++ '[' :: 'x' :: ']' :: r)) = false := by
  intro w₁ w₂ r hw₁ hw₂
  rw [lineMatchIncomplete_eq_core, dropW_all_append isWs w₁ _ hw₁,
    dropW_cons_false isWs '-' _ (by decide)]
  show matchIncompleteCore (w₂ ++ '[' :: 'x' :: ']' :: r) = false
  rw [matchIncompleteCore, dropW_all_append isWs w₂ _ hw₂,
    dropW_cons_false isWs '[' _ (by decide)]
  rfl

theorem lineMatchComplete_x_box : ∀ w₁ w₂ r,
    (∀ c ∈ w₁, isWs c = true) → (∀ c ∈ w₂, isWs c = true) →
    lineMatchComplete (w₁ ++ '-' :: (w₂ ++ '[' :: 'x' :: ']' :: r)) = true := by
  intro w₁ w₂ r hw₁ hw₂
  rw [lineMatchComplete_eq_core, dropW_all_append isWs w₁ _ hw₁,
    dropW_cons_false isWs '-' _ (by decide)]
  show matchCompleteCore (w₂ ++ '[' :: 'x' :: ']' :: r) = true
  rw [matchCompleteCore, dropW_all_append isWs w₂ _ hw₂,
    dropW_cons_false isWs '[' _ (by decide)]
  rfl

theorem shape_assoc : ∀ (w₁ w₂ X : List Char),
    w₁ ++ '-' :: (w₂ ++ X) = (w₁ ++ '-' :: w₂) ++ X := by
  intro w₁ w₂ X
  simp

theorem no_bracket_of_ws : ∀ w₁ w₂ : List Char,
    (∀ c ∈ w₁, isWs c = true) → (∀ c ∈ w₂, isWs c = true) →
    ∀ c ∈ w₁ ++ '-' :: w₂, c ≠ '[' := by
  intro w₁ w₂ hw₁ hw₂ c hc
  rcases List.mem_append.mp hc with h | h
  · intro he
    have := hw₁ c h
    rw [he] at this
    exact absurd this (by decide)
  · rcases List.mem_cons.mp h with h | h
    · rw [h]
      decide
    · intro he
      have := hw₂ c h
      rw [he] at this
      exact absurd this (by decide)

theorem replBoxEmpty_append_noBracket :
    ∀ p cs, (∀ c ∈ p, c ≠ '[') → replBoxEmpty (p ++ cs) = p ++ replBoxEmpty cs := by
  intro p
  induction p with
  | nil => intro cs _; rfl
  | cons a t ih =>
    intro cs h
    rw [List.cons_append, replBoxEmpty, if_neg (h a (List.mem_cons_self a t)),
      ih cs (fun c hc => h c (List.mem_cons_of_mem a hc))]
    rfl

theorem replBoxX_append_noBracket :
    ∀ p cs, (∀ c ∈ p, c ≠ '[') → replBoxX (p ++ cs) = p ++ replBoxX cs := by
  intro p
  induction p with
  | nil => intro cs _; rfl
  | cons a t ih =>
    intro cs h
    rw [List.cons_append, replBoxX, if_neg (h a (List.mem_cons_self a t)),
      ih cs (fun c hc => h c (List.mem_cons_of_mem a hc))]
    rfl

/-- The per-line toggle is an involution between the canonical
incomplete `[ ]` form and the canonical complete `[x]` form. -/
theorem toggleLine_canon_pair : ∀ w₁ w₂ r,
    (∀ c ∈ w₁, isWs c = true) → (∀ c ∈ w₂, isWs c = true) →
    toggleLine (w₁ ++ '-' :: (w₂ ++ '[' :: ' ' :: ']' :: r)) =
      some (w₁ ++ '-' :: (w₂ ++ '[' :: 'x' :: ']' :: r)) ∧
    toggleLine (w₁ ++ '-' :: (w₂ ++ '[' :: 'x' :: ']' :: r)) =
      some (w₁ ++ '-' :: (w₂ ++ '[' :: ' ' :: ']' :: r)) := by
  intro w₁ w₂ r hw₁ hw₂
  have hno := no_bracket_of_ws w₁ w₂ hw₁ hw₂
  constructor
  · rw [toggleLine, if_pos (lineMatchIncomplete_space_box w₁ w₂ r hw₁ hw₂)]
    rw [shape_assoc, replBoxEmpty_append_noBracket _ _ hno]
    rw [show replBoxEmpty ('[' :: ' ' :: ']' :: r) = '[' :: 'x' :: ']' :: r from rfl]
    rw [← shape_assoc]
  · rw [toggleLine, if_neg (by simp [lineMatchIncomplete_x_box w₁ w₂ r hw₁ hw₂]),
      if_pos (lineMatchComplete_x_box w₁ w₂ r hw₁ hw₂)]
    rw [shape_assoc, replBoxX_append_noBracket _ _ hno]
    rw [show replBoxX ('[' :: 'x' :: ']' :: r) = '[' :: ' ' :: ']' :: r from rfl]
    rw [← shape_assoc]

theorem toggle_todo_of_some (content : List Char) (n : Nat) (l₂ : List Char)
    (h₁ : 1 ≤ n) (h₂ : n ≤ (pySplitlines content).length)
    (h : toggleLine (lineAt content n) = some l₂) :
    toggle_todo content n =
      .ok (rebuild (setIdx (pySplitlines content) (n - 1) l₂) (endsNL content),
        "Task updated".data) := by
  simp only [toggle_todo]
  rw [if_neg (by omega), if_neg (by omega)]
  rw [show getIdx [] (pySplitlines content) (n - 1) = lineAt content n from rfl, h]

theorem toggleContent_of_some (content : List Char) (n : Nat) (l₂ : List Char)
    (h₁ : 1 ≤ n) (h₂ : n ≤ (pySplitlines content).length)
    (h : toggleLine (lineAt content n) = some l₂) :
    toggleContent content n =
      rebuild (setIdx (pySplitlines content) (n - 1) l₂) (endsNL content) := by
  rw [toggleContent, toggle_todo_of_some content n l₂ h₁ h₂ h]

theorem toggleContent_of_none (content : List Char) (n : Nat)
    (h₁ : 1 ≤ n) (h₂ : n ≤ (pySplitlines content).length)
    (h : toggleLine (lineAt content n) = none) :
    toggleContent content n = content := by
  rw [toggleContent]
  have htt : toggle_todo content n = .ok (content, "Not a task line".data) := by
    simp only [toggle_todo]
    rw [if_neg (by omega), if_neg (by omega)]
    rw [show getIdx [] (pySplitlines content) (n - 1) = lineAt content n from rfl, h]
  rw [htt]

/-- The double-toggle round trip for any line whose toggle is a
two-sided flip between the target line and some rewritten line. -/
theorem toggle_involution_core (content : List Char) (n : Nat) (b : List Char)
    (h₁ : 1 ≤ n) (h₂ : n ≤ (pySplitlines content).length)
    (hab : toggleLine (lineAt content n) = some b)
    (hba : toggleLine b = some (lineAt content n)) :
    lineAt (toggleContent (toggleContent content n) n) n = lineAt content n := by
  have hi : n - 1 < (pySplitlines content).length := by omega
  have ht : '\n' ∉ lineAt content n :=
    noNL_pySplitlines content _ (getIdx_mem [] _ _ hi)
  obtain ⟨hbnoNL, hbne⟩ := toggleLine_some_props _ _ ht hab
  obtain ⟨hanoNL, hane⟩ := toggleLine_some_props _ _ hbnoNL hba
  have e₁ := toggleContent_of_some content n b h₁ h₂ hab
  have hglue₁ := mutate_glue content n b h₁ h₂ hbnoNL hbne
  have hsplit₁ : pySplitlines (toggleContent content n) =
      setIdx (pySplitlines content) (n - 1) b := by
    rw [e₁]
    exact hglue₁.1
  have hlen₁ : (pySplitlines (toggleContent content n)).length =
      (pySplitlines content).length := by
    rw [hsplit₁, length_setIdx]
  have h₂' : n ≤ (pySplitlines (toggleContent content n)).length := by
    rw [hlen₁]
    exact h₂
  have hline₁ : lineAt (toggleContent content n) n = b := by
    rw [lineAt, hsplit₁]
    exact getIdx_setIdx_self [] _ _ _ hi
  have e₂ := toggleContent_of_some (toggleContent content n) n (lineAt content n)
    h₁ h₂' (by rw [hline₁]; exact hba)
  have hi' : n - 1 < (pySplitlines (toggleContent content n)).length := by
    rw [hlen₁]
    exact hi
  have hglue₂ := mutate_glue (toggleContent content n) n (lineAt content n)
    h₁ h₂' hanoNL hane
  rw [e₂, lineAt, hglue₂.1]
  exact getIdx_setIdx_self [] _ _ _ hi'

/--
C2 counterexample.  On the single-line document `- [X]` (uppercase
checkbox), toggling line 1 twice yields `- [x]`, not the original
`- [X]`: the claim fails as stated.
-/
theorem c2_toggle_counterexample :
    1 ≤ (pySplitlines "- [X]".data).length ∧
    lineAt (toggleContent (toggleContent "- [X]".data 1) 1) 1 ≠
      lineAt "- [X]".data 1 := by decide

/--
C2 (amended).  For every document and every in-range 1-based line
number whose target line is in canonical checkbox form — an incomplete
checkbox written exactly `[ ]`, a complete checkbox written exactly
lowercase `[x]`, or a line matching neither checkbox pattern — applying
`toggle_checkbox` twice restores that line to its original text.  (With
an uppercase `X` or non-canonical inner whitespace, the double toggle
canonicalizes the checkbox instead of restoring it.)
-/
theorem c2_toggle_involutive_amended :
    ∀ content n, 1 ≤ n → n ≤ (pySplitlines content).length →
      canonicalToggleLine (lineAt content n) →
      lineAt (toggleContent (toggleContent content n) n) n = lineAt content n := by
  intro content n h₁ h₂ hcanon
  rcases hcanon with ⟨w₁, w₂, r, hw₁, hw₂, hshape⟩ | ⟨w₁, w₂, r, hw₁, hw₂, hshape⟩ |
    ⟨hm₁, hm₂⟩
  · have hpair := toggleLine_canon_pair w₁ w₂ r hw₁ hw₂
    refine toggle_involution_core content n
      (w₁ ++ '-' :: (w₂ ++ '[' :: 'x' :: ']' :: r)) h₁ h₂ ?_ ?_
    · rw [hshape]
      exact hpair.1
    · rw [hshape]
      exact hpair.2
  · have hpair := toggleLine_canon_pair w₁ w₂ r hw₁ hw₂
    refine toggle_involution_core content n
      (w₁ ++ '-' :: (w₂ ++ '[' :: ' ' :: ']' :: r)) h₁ h₂ ?_ ?_
    · rw [hshape]
      exact hpair.2
    · rw [hshape]
      exact hpair.1
  · have hnone : toggleLine (lineAt content n) = none := by
      rw [toggleLine, if_neg (by simp [hm₁]), if_neg (by simp [hm₂])]
    rw [toggleContent_of_none content n h₁ h₂ hnone,
      toggleContent_of_none content n h₁ h₂ hnone]

/-- Witness for C2 at a concrete canonical checkbox line. -/
theorem c2_toggle_involutive_witness :
    lineAt (toggleContent (toggleContent "- [ ] buy milk\n".data 1) 1) 1 =
      lineAt "- [ ] buy milk\n".data 1 :=
  c2_toggle_involutive_amended "- [ ] buy milk\n".data 1 (by decide) (by decide)
    (Or.inl ⟨[], [' '], " buy milk".data, by decide, by decide, by decide⟩)
